import Mathlib

/-!
Verification development for the worktree-branch lifecycle engine of the
git_simplifier repository.  The TypeScript commands are shallowly embedded:
the version-control executor is an abstract state-passing function, every
executor invocation and every user-visible message is recorded as an event,
and the JavaScript string primitives used by the source (trim, split,
join, replace, includes) are given executable Lean counterparts.
-/

namespace GitSimplifier

/-! ## JavaScript string primitives used by the source -/

/-- Whitespace test mirroring the characters that JavaScript `trim` and the
regular expression class `\s` treat as whitespace (ASCII subset; the
exotic Unicode space characters never occur in the embedded scenarios). -/
def jsIsWsChar (c : Char) : Bool :=
  c = ' ' || c = '\t' || c = '\n' || c = '\r' || c = '\x0b' || c = '\x0c'

/-- Character-list core of JavaScript `String.prototype.trim`. -/
def jsTrimData (l : List Char) : List Char :=
  ((l.dropWhile jsIsWsChar).reverse.dropWhile jsIsWsChar).reverse

/-- JavaScript `value.trim()`. -/
def jsTrim (s : String) : String := String.mk (jsTrimData s.data)

/-- Character-list core of JavaScript `s.split(sep)` for a one-character
separator: split at every occurrence, keeping empty pieces. -/
def splitCharCore (c : Char) : List Char → List (List Char)
  | [] => [[]]
  | x :: xs =>
    if x = c then [] :: splitCharCore c xs
    else
      match splitCharCore c xs with
      | [] => [[x]]
      | p :: ps => (x :: p) :: ps

/-- JavaScript `output.split("\n")`. -/
def jsSplitNl (s : String) : List String :=
  (splitCharCore '\n' s.data).map (fun l => String.mk l)

/-- JavaScript `array.filter(Boolean)` on strings: drop the empty string,
the only falsy string value. -/
def filterBoolean (l : List String) : List String := l.filter (fun x => x ≠ "")

/-- Character-list core of JavaScript `array.join(sep)`. -/
def joinSepData (sep : List Char) : List (List Char) → List Char
  | [] => []
  | [a] => a
  | a :: b :: rest => a ++ sep ++ joinSepData sep (b :: rest)

/-- JavaScript `array.join(sep)` on strings. -/
def joinSep (sep : String) (l : List String) : String :=
  String.mk (joinSepData sep.data (l.map String.data))

/-- Decidable list-prefix test (used to model substring search). -/
def listIsPre : List Char → List Char → Bool
  | [], _ => true
  | _ :: _, [] => false
  | a :: as, b :: bs => a = b && listIsPre as bs

/-- Substring occurrence test on character lists. -/
def listHasSub (pat : List Char) : List Char → Bool
  | [] => listIsPre pat []
  | x :: xs => listIsPre pat (x :: xs) || listHasSub pat xs

/-- JavaScript `s.includes(pat)`. -/
def jsIncludes (pat s : String) : Bool := listHasSub pat.data s.data

/-- Character-list core of JavaScript `s.replace(pat, rep)` with a plain
string pattern: replace the first occurrence only (pattern nonempty in
every use made by the source). -/
def replaceOnceData (pat rep : List Char) : List Char → List Char
  | [] => []
  | x :: xs =>
    if listIsPre pat (x :: xs) then rep ++ (x :: xs).drop pat.length
    else x :: replaceOnceData pat rep xs

/-- JavaScript `s.replace(pat, rep)` for a plain nonempty string pattern. -/
def jsReplaceOnce (pat rep s : String) : String :=
  String.mk (replaceOnceData pat.data rep.data s.data)

/-! ## The executor model

`gitExec(args, cwd)` runs git as a subprocess and resolves with trimmed
stdout or rejects with the error text.  An executor is modelled as a pure
state-passing function from the external repository state to the
`Except`-style outcome of one call; commands record each call they issue. -/

/-- One `gitExec` invocation: the argument vector and the working
directory it runs in. -/
structure GitCall where
  args : List String
  cwd : String
deriving DecidableEq, Repr

/-- An executor: given the external repository state and one call, return
the outcome of the call (trimmed stdout, or the failure text) and the new
external state. -/
def Exec (σ : Type) : Type := σ → GitCall → Except String String × σ

/-- Observable behaviour of a command invocation: executor calls issued in
order, user-visible messages, window openings, and change notifications. -/
inductive Event where
  | gitCall (c : GitCall)
  | info (msg : String)
  | warn (msg : String)
  | warnChoice (msg : String) (options : List String)
  | error (msg : String)
  | openFolder (dir : String)
  | notify
deriving DecidableEq, Repr

/-- Calls that mutate repository state, by git subcommand (the source only
ever issues the listed argument shapes). -/
def isMutatingCall (c : GitCall) : Bool :=
  match c.args with
  | "add" :: _ => true
  | "commit" :: _ => true
  | "merge" :: _ => true
  | "checkout" :: _ => true
  | "fetch" :: _ => true
  | "push" :: _ => true
  | "stash" :: _ => true
  | "worktree" :: "add" :: _ => true
  | "worktree" :: "remove" :: _ => true
  | "branch" :: "-D" :: _ => true
  | _ => false

/-- True when an event list contains no mutating executor call. -/
def noMutatingCalls (evs : List Event) : Bool :=
  evs.all (fun ev =>
    match ev with
    | Event.gitCall c => !(isMutatingCall c)
    | _ => true)

/-- True when every executor call in an event list runs in directory `d`. -/
def callsUseDir (evs : List Event) (d : String) : Bool :=
  evs.all (fun ev =>
    match ev with
    | Event.gitCall c => c.cwd = d
    | _ => true)

/-- Number of commit calls in an event list. -/
def commitCallCount (evs : List Event) : Nat :=
  (evs.filter (fun ev =>
    match ev with
    | Event.gitCall c =>
      match c.args with
      | "commit" :: _ => true
      | _ => false
    | _ => false)).length

/-- True when an event list contains a `worktree add` executor call. -/
def hasWorktreeAddCall (evs : List Event) : Bool :=
  evs.any (fun ev =>
    match ev with
    | Event.gitCall c =>
      match c.args with
      | "worktree" :: "add" :: _ => true
      | _ => false
    | _ => false)

/-! ## Argument vectors issued by the source (gitUtils.ts and the
command files of src/commands) -/

def revParseMergeHead (cwd : String) : GitCall :=
  ⟨["rev-parse", "--verify", "MERGE_HEAD"], cwd⟩

def diffConflictCall (cwd : String) : GitCall :=
  ⟨["diff", "--name-only", "--diff-filter=U"], cwd⟩

def addAllCall (cwd : String) : GitCall := ⟨["add", "-A"], cwd⟩

def commitNoEditCall (cwd : String) : GitCall := ⟨["commit", "--no-edit"], cwd⟩

def revParseHeadCall (cwd : String) : GitCall :=
  ⟨["rev-parse", "--abbrev-ref", "HEAD"], cwd⟩

def mergeCall (cwd remote : String) : GitCall := ⟨["merge", remote, "--no-edit"], cwd⟩

def mergeAbortCall (cwd : String) : GitCall := ⟨["merge", "--abort"], cwd⟩

def checkoutCall (branch cwd : String) : GitCall := ⟨["checkout", branch], cwd⟩

def fetchOriginCall (root : String) : GitCall := ⟨["fetch", "origin"], root⟩

def fetchAllCall (root : String) : GitCall := ⟨["fetch", "--all"], root⟩

def symbolicRefCall (root : String) : GitCall :=
  ⟨["symbolic-ref", "refs/remotes/origin/HEAD", "--short"], root⟩

def verifyMainCall (root : String) : GitCall :=
  ⟨["rev-parse", "--verify", "origin/main"], root⟩

def branchListCall (root : String) : GitCall :=
  ⟨["branch", "--format=%(refname:short)"], root⟩

def branchRemoteListCall (root : String) : GitCall :=
  ⟨["branch", "-r", "--format=%(refname:short)"], root⟩

def worktreeListCall (root : String) : GitCall :=
  ⟨["worktree", "list", "--porcelain"], root⟩

def worktreeAddCall (name wtPath base root : String) : GitCall :=
  ⟨["worktree", "add", "-b", name, wtPath, base], root⟩

def worktreeRemoveCall (p root : String) : GitCall :=
  ⟨["worktree", "remove", p, "--force"], root⟩

def branchDeleteCall (b root : String) : GitCall := ⟨["branch", "-D", b], root⟩

def remoteDeleteCall (b root : String) : GitCall :=
  ⟨["push", "origin", "--delete", b], root⟩

/-! ## State-reader helpers (gitUtils.ts and the private helpers at the
bottom of the sync command file) -/

/-- Interpretation used by the helper `checkForConflicts` of one
`git diff --name-only --diff-filter=U` outcome: nonempty trimmed output
means conflicts; a failed call is swallowed and reported as `false`. -/
def hasConflictsOutput : Except String String → Bool
  | Except.ok out => decide (0 < (jsTrim out).length)
  | Except.error _ => false

/-- Interpretation used by the helper `getConflictFiles` of the
same outcome: split on newlines and drop falsy entries; a failed call is
swallowed and reported as the empty list. -/
def conflictFilesOutput : Except String String → List String
  | Except.ok out => filterBoolean (jsSplitNl out)
  | Except.error _ => []

/-- Embedding of `isMergeInProgress`: `rev-parse --verify MERGE_HEAD`
succeeds exactly during an active merge; a failure means no merge. -/
def isMergeInProgress (e : Exec σ) (cwd : String) (s : σ) : Bool × σ :=
  (match (e s (revParseMergeHead cwd)).1 with
   | Except.ok _ => true
   | Except.error _ => false,
   (e s (revParseMergeHead cwd)).2)

/-- Embedding of `checkForConflicts`. -/
def checkForConflicts (e : Exec σ) (cwd : String) (s : σ) : Bool × σ :=
  (hasConflictsOutput (e s (diffConflictCall cwd)).1, (e s (diffConflictCall cwd)).2)

/-- Embedding of `getConflictFiles`. -/
def getConflictFiles (e : Exec σ) (cwd : String) (s : σ) : List String × σ :=
  (conflictFilesOutput (e s (diffConflictCall cwd)).1, (e s (diffConflictCall cwd)).2)

/-! ## Re-sync command (resyncCommand in the sync command file) -/

def noMergeMsg : String := "No merge in progress — nothing to re-sync."

def stillConflictsMsg (files : List String) : String :=
  "⚠️ There are still unresolved conflicts:\n" ++ joinSep ", " files ++
    "\n\nPlease resolve them before re-syncing."

def resyncFailMsg (m : String) : String := "Re-sync failed: " ++ m

def resyncDoneMsg (branch : String) : String :=
  "✅ Re-sync complete! Branch \u0027" ++ branch ++ "\u0027 merge has been committed."

/-- Finalization tail of `resyncCommand`: stage everything, commit the
merge with the default message, then read the branch name for the success
report.  Any executor failure is caught by the outer handler of the command. -/
def resyncFinalize (e : Exec σ) (cwd : String) (pre : List Event) (s : σ) :
    List Event × σ :=
  match (e s (addAllCall cwd)).1 with
  | Except.error m =>
    (pre ++ [Event.gitCall (addAllCall cwd), Event.error (resyncFailMsg m)],
     (e s (addAllCall cwd)).2)
  | Except.ok _ =>
    let s1 := (e s (addAllCall cwd)).2
    match (e s1 (commitNoEditCall cwd)).1 with
    | Except.error m =>
      (pre ++ [Event.gitCall (addAllCall cwd), Event.gitCall (commitNoEditCall cwd),
        Event.error (resyncFailMsg m)], (e s1 (commitNoEditCall cwd)).2)
    | Except.ok _ =>
      let s2 := (e s1 (commitNoEditCall cwd)).2
      match (e s2 (revParseHeadCall cwd)).1 with
      | Except.error m =>
        (pre ++ [Event.gitCall (addAllCall cwd), Event.gitCall (commitNoEditCall cwd),
          Event.gitCall (revParseHeadCall cwd), Event.error (resyncFailMsg m)],
         (e s2 (revParseHeadCall cwd)).2)
      | Except.ok branch =>
        (pre ++ [Event.gitCall (addAllCall cwd), Event.gitCall (commitNoEditCall cwd),
          Event.gitCall (revParseHeadCall cwd), Event.info (resyncDoneMsg branch)],
         (e s2 (revParseHeadCall cwd)).2)

/-- Embedding of `resyncCommand` for a resolved working directory `cwd`
(the source takes the ambient workspace folder, falling back to the
repository root).  Mirrors the source exactly: merge-in-progress check,
conflict re-check (two separate diff calls, one in `checkForConflicts`
and one in `getConflictFiles`), then stage-and-commit. -/
def resyncCommand (e : Exec σ) (cwd : String) (s0 : σ) : List Event × σ :=
  let merging := (isMergeInProgress e cwd s0).1
  let s1 := (isMergeInProgress e cwd s0).2
  if merging then
    let conflicted := (checkForConflicts e cwd s1).1
    let s2 := (checkForConflicts e cwd s1).2
    if conflicted then
      let files := (getConflictFiles e cwd s2).1
      let s3 := (getConflictFiles e cwd s2).2
      ([Event.gitCall (revParseMergeHead cwd), Event.gitCall (diffConflictCall cwd),
        Event.gitCall (diffConflictCall cwd), Event.warn (stillConflictsMsg files)], s3)
    else
      resyncFinalize e cwd
        [Event.gitCall (revParseMergeHead cwd), Event.gitCall (diffConflictCall cwd)] s2
  else
    ([Event.gitCall (revParseMergeHead cwd), Event.info noMergeMsg], s1)

/-! ## Sync command (syncBranchCommand in the sync command file) -/

/-- A worktree as parsed from `git worktree list --porcelain`: a directory
path paired with the branch checked out there. -/
structure Worktree where
  path : String
  branch : String
deriving DecidableEq, Repr

/-- A selectable entry of the sync quick-pick: a branch, with the path of
its dedicated worktree when it has one. -/
structure BranchItem where
  branch : String
  worktreePath : Option String
deriving DecidableEq, Repr

/-- Embedding of the item list built by `syncBranchCommand`: every
worktree first (with its path), then every local branch without a
worktree (`worktreeBranches.includes(branch)` filtered out). -/
def buildBranchItems (worktrees : List Worktree) (localBranches : List String) :
    List BranchItem :=
  worktrees.map (fun wt => ⟨wt.branch, some wt.path⟩) ++
    (localBranches.filter
      (fun b => !((worktrees.map Worktree.branch).contains b))).map
      (fun b => ⟨b, none⟩)

/-- Embedding of `selected.worktreePath || repoRoot`: JavaScript
truthiness sends both `null` and the empty string to the repository
root. -/
def targetDir (item : BranchItem) (repoRoot : String) : String :=
  match item.worktreePath with
  | some p => if p = "" then repoRoot else p
  | none => repoRoot

/-- Embedding of the guard `!selected.worktreePath` (JavaScript
truthiness again). -/
def noWorktree (item : BranchItem) : Bool :=
  match item.worktreePath with
  | some p => p = ""
  | none => true

def syncFailMsg (m : String) : String := "Sync failed: " ++ m

def syncDoneMsg (branch remote : String) : String :=
  "✅ Sync success! Branch \u0027" ++ branch ++ "\u0027 is now up to date with " ++
    remote ++ "."

def conflictPromptMsg (branch : String) : String :=
  "⚠️ Merge conflicts detected in \u0027" ++ branch ++ "\u0027! Please resolve them."

def openWindowLabel : String := "Open in New Window"

def abortMergeLabel : String := "Abort Merge"

def resolveHintMsg : String :=
  "Resolve conflicts in the new window, then use \"Git Simplifier: Re-sync after conflict resolution\" to finalize."

def mergeAbortedMsg (branch : String) : String :=
  "Merge aborted for \u0027" ++ branch ++ "\u0027."

def mergeFailedMsg (m : String) : String := "Merge failed: " ++ m

def mismatchMsg (cwd currentBranch branch : String) : String :=
  "Worktree at " ++ cwd ++ " is on \u0027" ++ currentBranch ++
    "\u0027, expected \u0027" ++ branch ++ "\u0027."

/-- Merge attempt and conflict handling of `syncBranchCommand` (steps 6
and 7 of the source): try the merge; on success notify and report; on
failure query the conflict state and either prompt with the two
resolutions (open a new window, or abort the merge) or surface the
executor error verbatim.  `action` is the button the user picks on the
conflict prompt (`none` models dismissal). -/
def syncMerge (e : Exec σ) (cwd branch remote : String) (action : Option String)
    (s : σ) : List Event × σ :=
  match (e s (mergeCall cwd remote)).1 with
  | Except.ok _ =>
    ([Event.gitCall (mergeCall cwd remote), Event.notify,
      Event.info (syncDoneMsg branch remote)], (e s (mergeCall cwd remote)).2)
  | Except.error mergeMsg =>
    let s1 := (e s (mergeCall cwd remote)).2
    let conflicted := (checkForConflicts e cwd s1).1
    let s2 := (checkForConflicts e cwd s1).2
    if conflicted then
      let base := [Event.gitCall (mergeCall cwd remote),
        Event.gitCall (diffConflictCall cwd),
        Event.warnChoice (conflictPromptMsg branch) [openWindowLabel, abortMergeLabel]]
      if action = some openWindowLabel then
        (base ++ [Event.openFolder cwd, Event.info resolveHintMsg], s2)
      else if action = some abortMergeLabel then
        match (e s2 (mergeAbortCall cwd)).1 with
        | Except.ok _ =>
          (base ++ [Event.gitCall (mergeAbortCall cwd),
            Event.info (mergeAbortedMsg branch)], (e s2 (mergeAbortCall cwd)).2)
        | Except.error m =>
          (base ++ [Event.gitCall (mergeAbortCall cwd),
            Event.error (syncFailMsg m)], (e s2 (mergeAbortCall cwd)).2)
      else
        (base, s2)
    else
      ([Event.gitCall (mergeCall cwd remote), Event.gitCall (diffConflictCall cwd),
        Event.error (mergeFailedMsg mergeMsg)], s2)

/-- Embedding of `syncBranchCommand` from the point where the user has
picked `item` (step 5 of the source onward): resolve the target
directory, verify the checked-out branch there, checkout first in the
no-worktree case or fail with the mismatch error in the worktree case,
then attempt the merge. -/
def syncSelected (e : Exec σ) (repoRoot remote : String) (item : BranchItem)
    (action : Option String) (s0 : σ) : List Event × σ :=
  let cwd := targetDir item repoRoot
  match (e s0 (revParseHeadCall cwd)).1 with
  | Except.error m =>
    ([Event.gitCall (revParseHeadCall cwd), Event.error (syncFailMsg m)],
     (e s0 (revParseHeadCall cwd)).2)
  | Except.ok out =>
    let s1 := (e s0 (revParseHeadCall cwd)).2
    let currentBranch := jsTrim out
    if currentBranch = item.branch then
      let r := syncMerge e cwd item.branch remote action s1
      ([Event.gitCall (revParseHeadCall cwd)] ++ r.1, r.2)
    else if noWorktree item then
      match (e s1 (checkoutCall item.branch cwd)).1 with
      | Except.error m =>
        ([Event.gitCall (revParseHeadCall cwd),
          Event.gitCall (checkoutCall item.branch cwd), Event.error (syncFailMsg m)],
         (e s1 (checkoutCall item.branch cwd)).2)
      | Except.ok _ =>
        let s2 := (e s1 (checkoutCall item.branch cwd)).2
        let r := syncMerge e cwd item.branch remote action s2
        ([Event.gitCall (revParseHeadCall cwd),
          Event.gitCall (checkoutCall item.branch cwd)] ++ r.1, r.2)
    else
      ([Event.gitCall (revParseHeadCall cwd),
        Event.error (mismatchMsg cwd currentBranch item.branch)], s1)

/-! ## Removal workflow (removeBranch.ts) -/

/-- A selectable entry of the removal quick-pick. -/
structure RemoveItem where
  branch : String
  worktreePath : Option String
deriving DecidableEq, Repr

/-- Embedding of `localBranches.filter((b) => b !== currentBranch)`. -/
def deletableBranches (localBranches : List String) (currentBranch : String) :
    List String :=
  localBranches.filter (fun b => b ≠ currentBranch)

/-- Embedding of the quick-pick item construction of `removeBranchCommand`:
each deletable branch is paired with the path of its worktree when
`worktrees.find` locates one (`worktree?.path || null` sends a missing or
empty path to null). -/
def buildRemoveItems (deletable : List String) (worktrees : List Worktree) :
    List RemoveItem :=
  deletable.map (fun b =>
    match worktrees.find? (fun wt => wt.branch = b) with
    | some wt => ⟨b, if wt.path = "" then none else some wt.path⟩
    | none => ⟨b, none⟩)

def removeFailMsg (branch m : String) : String :=
  "Failed to remove \u0027" ++ branch ++ "\u0027: " ++ m

/-- Branch-deletion steps of one loop iteration of `removeBranchCommand`:
delete the local branch, then optionally the remote branch (a remote
failure is swallowed by the inner empty catch). -/
def deleteSteps (e : Exec σ) (root : String) (deleteRemote : Bool)
    (item : RemoveItem) (s : σ) : List Event × σ :=
  match (e s (branchDeleteCall item.branch root)).1 with
  | Except.error m =>
    ([Event.gitCall (branchDeleteCall item.branch root),
      Event.warn (removeFailMsg item.branch m)],
     (e s (branchDeleteCall item.branch root)).2)
  | Except.ok _ =>
    let s1 := (e s (branchDeleteCall item.branch root)).2
    if deleteRemote then
      ([Event.gitCall (branchDeleteCall item.branch root),
        Event.gitCall (remoteDeleteCall item.branch root)],
       (e s1 (remoteDeleteCall item.branch root)).2)
    else
      ([Event.gitCall (branchDeleteCall item.branch root)], s1)

/-- One iteration of the removal loop: remove the worktree first when the
item has one; any failure of the worktree or branch step is caught by the
per-item handler, which reports the branch and the reason and lets the
loop continue. -/
def processOne (e : Exec σ) (root : String) (deleteRemote : Bool)
    (item : RemoveItem) (s : σ) : List Event × σ :=
  match item.worktreePath with
  | some p =>
    match (e s (worktreeRemoveCall p root)).1 with
    | Except.error m =>
      ([Event.gitCall (worktreeRemoveCall p root),
        Event.warn (removeFailMsg item.branch m)],
       (e s (worktreeRemoveCall p root)).2)
    | Except.ok _ =>
      let s1 := (e s (worktreeRemoveCall p root)).2
      let r := deleteSteps e root deleteRemote item s1
      ([Event.gitCall (worktreeRemoveCall p root)] ++ r.1, r.2)
  | none => deleteSteps e root deleteRemote item s

/-- Embedding of the `for` loop of `removeBranchCommand` over the selected
items. -/
def removeLoop (e : Exec σ) (root : String) (deleteRemote : Bool) :
    List RemoveItem → σ → List Event × σ
  | [], s => ([], s)
  | item :: rest, s =>
    let r1 := processOne e root deleteRemote item s
    let r2 := removeLoop e root deleteRemote rest r1.2
    (r1.1 ++ r2.1, r2.2)

/-! ## Worktree path policy (getWorktreeBaseDir and the worktree path
computed by createBranchCommand)

The source uses the path module of the Node standard library, an external
collaborator; `pathBasename`, `pathDirname` and `pathJoin` model its
POSIX behaviour on normalized absolute paths without trailing
separators, the only inputs the commands produce. -/

/-- Segments of a path, split at every separator. -/
def splitSlash (s : String) : List String :=
  (splitCharCore '/' s.data).map (fun l => String.mk l)

/-- Model of `path.basename` for normalized paths: the final segment. -/
def pathBasename (p : String) : String := (splitSlash p).getLastD ""

/-- Model of `path.dirname` for normalized paths: everything before the
final segment. -/
def pathDirname (p : String) : String := joinSep "/" (splitSlash p).dropLast

/-- Model of `path.join` for a normalized directory and a nonempty
relative segment. -/
def pathJoin (a b : String) : String := a ++ "/" ++ b

/-- Embedding of `getWorktreeBaseDir`: worktrees live in a sibling folder
named after the repository with the `-worktrees` suffix. -/
def getWorktreeBaseDir (repoRoot : String) : String :=
  pathJoin (pathDirname repoRoot) (pathBasename repoRoot ++ "-worktrees")

/-- Embedding of `newBranchName.replace(/\//g, "-")`: every separator
character of the branch name becomes a hyphen. -/
def sanitizeBranch (b : String) : String :=
  String.mk (b.data.map (fun c => if c = '/' then '-' else c))

/-- The worktree path `createBranchCommand` derives for a branch name. -/
def worktreePathFor (repoRoot name : String) : String :=
  pathJoin (getWorktreeBaseDir repoRoot) (sanitizeBranch name)

/-! ## Creation workflow (createBranchCommand) -/

/-- The three creation modes of the quick-pick. -/
inductive CreateMode where
  | fromOriginMaster
  | fromLocalBranch
  | cloneRemoteBranch
deriving DecidableEq, Repr

/-- Embedding of the `validateInput` closure passed to the input box (the
same closure in all three modes): empty or whitespace-only names and
names containing whitespace are rejected with a message, valid names
yield null. -/
def validateInput (value : String) : Option String :=
  if value = "" || jsTrim value = "" then some "Branch name cannot be empty"
  else if value.data.any jsIsWsChar then some "Branch name cannot contain spaces"
  else none

/-- Modelled from the spec: the interactive surface (out of scope per the
purpose section) is missing from src; an input box accepts a submitted
value only when `validateInput` returns null, so a rejected or cancelled
entry yields nothing. -/
def showInputBox (attempt : Option String) : Option String :=
  match attempt with
  | some v => if validateInput v = none then some v else none
  | none => none

/-- Embedding of `getDefaultRemoteBranch`: the symbolic origin HEAD when
available, else probe `origin/main`, else fall back to
`origin/master`. -/
def getDefaultRemoteBranch (e : Exec σ) (root : String) (s : σ) :
    List Event × String × σ :=
  match (e s (symbolicRefCall root)).1 with
  | Except.ok ref =>
    ([Event.gitCall (symbolicRefCall root)], ref, (e s (symbolicRefCall root)).2)
  | Except.error _ =>
    let s1 := (e s (symbolicRefCall root)).2
    match (e s1 (verifyMainCall root)).1 with
    | Except.ok _ =>
      ([Event.gitCall (symbolicRefCall root), Event.gitCall (verifyMainCall root)],
       "origin/main", (e s1 (verifyMainCall root)).2)
    | Except.error _ =>
      ([Event.gitCall (symbolicRefCall root), Event.gitCall (verifyMainCall root)],
       "origin/master", (e s1 (verifyMainCall root)).2)

/-- Embedding of the branch-listing parse in `getLocalBranches`: an empty
output is no branches, otherwise split lines and drop falsy entries. -/
def parseBranchList (out : String) : List String :=
  if out = "" then [] else filterBoolean (jsSplitNl out)

/-- Embedding of the remote-listing filter in `getRemoteBranches`:
entries containing "HEAD" are dropped. -/
def parseRemoteBranchList (out : String) : List String :=
  (parseBranchList out).filter (fun b => !(jsIncludes "HEAD" b))

/-- Embedding of `selectedRemote.replace(/^[^/]+\//, "")`: strip the
leading remote prefix up to and including the first separator when the
name starts with at least one non-separator character followed by a
separator. -/
def dropRemoteQualifier (s : String) : String :=
  let pre := s.data.takeWhile (fun c => c ≠ '/')
  if pre ≠ [] ∧ pre.length < s.data.length then String.mk (s.data.drop (pre.length + 1))
  else s

def createFailMsg (m : String) : String := "Failed to create branch: " ++ m

def createdMsg (name : String) : String :=
  "✅ Branch \u0027" ++ name ++ "\u0027 created and opened in a new window!"

/-- Common tail of all three creation modes: prompt for the new branch
name through the validated input box, then create branch and worktree in
one `git worktree add -b` call, open the new directory and notify. -/
def finishCreate (e : Exec σ) (root : String) (pre : List Event)
    (baseBranch : String) (nameAttempt : Option String) (s : σ) : List Event × σ :=
  match showInputBox nameAttempt with
  | none => (pre, s)
  | some name =>
    let wtPath := worktreePathFor root name
    match (e s (worktreeAddCall name wtPath baseBranch root)).1 with
    | Except.error m =>
      (pre ++ [Event.gitCall (worktreeAddCall name wtPath baseBranch root),
        Event.error (createFailMsg m)],
       (e s (worktreeAddCall name wtPath baseBranch root)).2)
    | Except.ok _ =>
      (pre ++ [Event.gitCall (worktreeAddCall name wtPath baseBranch root),
        Event.openFolder wtPath, Event.notify, Event.info (createdMsg name)],
       (e s (worktreeAddCall name wtPath baseBranch root)).2)

/-- Embedding of `createBranchCommand`.  `mode` is the quick-pick choice
(`none` models cancellation), `localPick` and `remotePick` the base
selections of the second and third mode, `nameAttempt` the text submitted
to the branch-name input box. -/
def createBranchCommand (e : Exec σ) (root : String) (mode : Option CreateMode)
    (localPick remotePick nameAttempt : Option String) (s : σ) : List Event × σ :=
  match mode with
  | none => ([], s)
  | some CreateMode.fromOriginMaster =>
    match (e s (fetchOriginCall root)).1 with
    | Except.error m =>
      ([Event.gitCall (fetchOriginCall root), Event.error (createFailMsg m)],
       (e s (fetchOriginCall root)).2)
    | Except.ok _ =>
      let s1 := (e s (fetchOriginCall root)).2
      let r := getDefaultRemoteBranch e root s1
      finishCreate e root ([Event.gitCall (fetchOriginCall root)] ++ r.1) r.2.1
        nameAttempt r.2.2
  | some CreateMode.fromLocalBranch =>
    match (e s (branchListCall root)).1 with
    | Except.error m =>
      ([Event.gitCall (branchListCall root), Event.error (createFailMsg m)],
       (e s (branchListCall root)).2)
    | Except.ok out =>
      let s1 := (e s (branchListCall root)).2
      let branches := parseBranchList out
      if branches.isEmpty then
        ([Event.gitCall (branchListCall root), Event.warn "No local branches found."], s1)
      else
        match localPick with
        | some b =>
          if branches.contains b then
            finishCreate e root [Event.gitCall (branchListCall root)] b nameAttempt s1
          else ([Event.gitCall (branchListCall root)], s1)
        | none => ([Event.gitCall (branchListCall root)], s1)
  | some CreateMode.cloneRemoteBranch =>
    match (e s (fetchAllCall root)).1 with
    | Except.error m =>
      ([Event.gitCall (fetchAllCall root), Event.error (createFailMsg m)],
       (e s (fetchAllCall root)).2)
    | Except.ok _ =>
      let s1 := (e s (fetchAllCall root)).2
      match (e s1 (branchRemoteListCall root)).1 with
      | Except.error m =>
        ([Event.gitCall (fetchAllCall root), Event.gitCall (branchRemoteListCall root),
          Event.error (createFailMsg m)], (e s1 (branchRemoteListCall root)).2)
      | Except.ok out =>
        let s2 := (e s1 (branchRemoteListCall root)).2
        let remotes := parseRemoteBranchList out
        if remotes.isEmpty then
          ([Event.gitCall (fetchAllCall root), Event.gitCall (branchRemoteListCall root),
            Event.warn "No remote branches found."], s2)
        else
          match remotePick with
          | some b =>
            if remotes.contains b then
              finishCreate e root
                [Event.gitCall (fetchAllCall root), Event.gitCall (branchRemoteListCall root)]
                b nameAttempt s2
            else
              ([Event.gitCall (fetchAllCall root),
                Event.gitCall (branchRemoteListCall root)], s2)
          | none =>
            ([Event.gitCall (fetchAllCall root),
              Event.gitCall (branchRemoteListCall root)], s2)

/-! ## A modelled executor for one target directory

The version-control tool itself is an external collaborator.  `DirState`
and `runGit` model, from the external-interface section of the spec, the
directory-observable facts the sync and re-sync commands depend on:
commit count on the checked-out branch, the merge-in-progress flag
(`MERGE_HEAD`), and the list of files with unresolved conflicts. -/

/-- Modelled from the spec: the on-disk condition of one target directory
as observable through the executor (the repository data the spec says a
SyncSession is reconstructed from). -/
structure DirState where
  commits : Nat
  mergeInProgress : Bool
  conflictFiles : List String
  currentBranch : String
deriving DecidableEq, Repr

/-- Modelled from the spec: executor semantics for the calls the re-sync
machine issues.  `rev-parse --verify MERGE_HEAD` succeeds exactly during
a merge; the conflict diff lists the unresolved files one per line;
`add -A` stages everything (marking conflicts resolved); `commit
--no-edit` during a merge produces exactly one commit and ends the merge;
`merge --abort` discards the in-progress merge. -/
def runGit : Exec DirState := fun s c =>
  if c.args = ["rev-parse", "--verify", "MERGE_HEAD"] then
    if s.mergeInProgress then (Except.ok "MERGE_HEAD", s)
    else (Except.error "fatal: Needed a single revision", s)
  else if c.args = ["rev-parse", "--abbrev-ref", "HEAD"] then
    (Except.ok s.currentBranch, s)
  else if c.args = ["diff", "--name-only", "--diff-filter=U"] then
    (Except.ok (joinSep "\n" s.conflictFiles), s)
  else if c.args = ["add", "-A"] then
    (Except.ok "", ⟨s.commits, s.mergeInProgress, [], s.currentBranch⟩)
  else if c.args = ["commit", "--no-edit"] then
    if s.mergeInProgress then
      (Except.ok "", ⟨s.commits + 1, false, s.conflictFiles, s.currentBranch⟩)
    else (Except.error "nothing to commit", s)
  else if c.args = ["merge", "--abort"] then
    if s.mergeInProgress then
      (Except.ok "", ⟨s.commits, false, [], s.currentBranch⟩)
    else (Except.error "fatal: There is no merge to abort", s)
  else (Except.error "unsupported", s)

/-! ## Concrete executors used by the witness theorems -/

/-- A concrete executor for the C10 witness: merge in progress, conflict
query failing, everything else succeeding. -/
def brokenDiffExec : Exec Nat := fun s c =>
  if c.args = ["rev-parse", "--verify", "MERGE_HEAD"] then (Except.ok "MERGE_HEAD", s)
  else if c.args = ["diff", "--name-only", "--diff-filter=U"] then
    (Except.error "boom", s)
  else (Except.ok "", s)

/-- A concrete executor for the C2 witness: merge fails, one conflicted
file remains. -/
def conflictExec : Exec Nat := fun s c =>
  if c.args = ["rev-parse", "--abbrev-ref", "HEAD"] then (Except.ok "feat", s)
  else if c.args = ["merge", "origin/main", "--no-edit"] then
    (Except.error "CONFLICT", s)
  else if c.args = ["diff", "--name-only", "--diff-filter=U"] then
    (Except.ok "file.txt", s)
  else (Except.ok "", s)

/-- A concrete executor for the C5 witness: the worktree directory is on
a different branch than the selected item. -/
def mismatchExec : Exec Nat := fun s c =>
  if c.args = ["rev-parse", "--abbrev-ref", "HEAD"] then (Except.ok "main", s)
  else (Except.ok "", s)


/-- A concrete executor for the C8 witness: removing the worktree of
branch B fails (directory locked), everything else succeeds. -/
def lockedExec : Exec Nat := fun s c =>
  if c.args = ["worktree", "remove", "/wt/B", "--force"] then
    (Except.error "locked", s)
  else (Except.ok "", s)

/-- A trivially succeeding executor for the C7 witness. -/
def okExec : Exec Nat := fun s _ => (Except.ok "", s)

/-! ## Lemmas about the JavaScript string primitives -/

theorem data_append_eq (a b : String) : (a ++ b).data = a.data ++ b.data := by
  cases a; cases b; rfl

theorem splitCharCore_ne_nil (c : Char) (l : List Char) : splitCharCore c l ≠ [] := by
  induction l with
  | nil => simp [splitCharCore]
  | cons x xs ih =>
    simp only [splitCharCore]
    by_cases hx : x = c
    · simp [hx]
    · simp only [hx, if_neg]
      cases hs : splitCharCore c xs with
      | nil => simp
      | cons p ps => simp

theorem splitCharCore_no_sep (c : Char) (l : List Char) :
    ∀ w ∈ splitCharCore c l, c ∉ w := by
  induction l with
  | nil => intro w hw; simp [splitCharCore] at hw; simp [hw]
  | cons x xs ih =>
    intro w hw
    simp only [splitCharCore] at hw
    by_cases hx : x = c
    · simp only [hx, if_pos rfl] at hw
      rcases List.mem_cons.mp hw with h | h
      · simp [h]
      · exact ih w h
    · simp only [if_neg hx] at hw
      cases hs : splitCharCore c xs with
      | nil => exact absurd hs (splitCharCore_ne_nil c xs)
      | cons p ps =>
        rw [hs] at hw
        rcases List.mem_cons.mp hw with h | h
        · subst h
          intro hc
          rcases List.mem_cons.mp hc with h | h
          · exact hx h.symm
          · exact ih p (hs ▸ List.mem_cons_self p ps) h
        · exact ih w (hs ▸ List.mem_cons_of_mem p h)

theorem splitCharCore_no_sep_word (c : Char) (w : List Char) (h : c ∉ w) :
    splitCharCore c w = [w] := by
  induction w with
  | nil => rfl
  | cons x xs ih =>
    have hx : x ≠ c := fun he => h (he ▸ List.mem_cons_self x xs)
    have hxs : c ∉ xs := fun hm => h (List.mem_cons_of_mem x hm)
    simp only [splitCharCore, if_neg hx, ih hxs]

theorem splitCharCore_append_sep (c : Char) (w l : List Char) (h : c ∉ w) :
    splitCharCore c (l ++ c :: w) = splitCharCore c l ++ [w] := by
  induction l with
  | nil =>
    simp only [List.nil_append, splitCharCore, if_pos rfl,
      splitCharCore_no_sep_word c w h]
    rfl
  | cons x xs ih =>
    simp only [List.cons_append, splitCharCore]
    by_cases hx : x = c
    · simp [hx, ih]
    · simp only [if_neg hx, List.append_eq]
      rw [ih]
      cases hs : splitCharCore c xs with
      | nil => exact absurd hs (splitCharCore_ne_nil c xs)
      | cons p ps => rfl

theorem splitCharCore_sep_cons (c : Char) (w l : List Char) (h : c ∉ w) :
    splitCharCore c (w ++ c :: l) = w :: splitCharCore c l := by
  induction w with
  | nil => simp [splitCharCore]
  | cons x xs ih =>
    have hx : x ≠ c := fun he => h (he ▸ List.mem_cons_self x xs)
    have hxs : c ∉ xs := fun hm => h (List.mem_cons_of_mem x hm)
    simp only [List.cons_append, splitCharCore, if_neg hx, List.append_eq]
    rw [ih hxs]

theorem joinSepData_split_rt (c : Char) (l : List Char) :
    joinSepData [c] (splitCharCore c l) = l := by
  induction l with
  | nil => rfl
  | cons x xs ih =>
    simp only [splitCharCore]
    by_cases hx : x = c
    · subst hx
      simp only [if_pos rfl]
      cases hs : splitCharCore x xs with
      | nil => exact absurd hs (splitCharCore_ne_nil x xs)
      | cons p ps =>
        rw [hs] at ih
        simp [joinSepData, ih]
    · simp only [if_neg hx]
      cases hs : splitCharCore c xs with
      | nil => exact absurd hs (splitCharCore_ne_nil c xs)
      | cons p ps =>
        rw [hs] at ih
        cases ps with
        | nil => simpa [joinSepData] using congrArg (x :: ·) ih
        | cons q qs => simpa [joinSepData] using congrArg (x :: ·) ih

theorem split_joinSepData_rt (c : Char) (fs : List (List Char)) (hne : fs ≠ [])
    (h : ∀ f ∈ fs, c ∉ f) :
    splitCharCore c (joinSepData [c] fs) = fs := by
  induction fs with
  | nil => exact absurd rfl hne
  | cons a rest ih =>
    cases rest with
    | nil =>
      simp only [joinSepData]
      exact splitCharCore_no_sep_word c a (h a (List.mem_cons_self a []))
    | cons b rest2 =>
      have ha : c ∉ a := h a (List.mem_cons_self a _)
      have hrest : ∀ f ∈ b :: rest2, c ∉ f := fun f hf =>
        h f (List.mem_cons_of_mem a hf)
      have ihr := ih (by simp) hrest
      simp only [joinSepData]
      calc splitCharCore c (a ++ [c] ++ joinSepData [c] (b :: rest2))
          = splitCharCore c (a ++ c :: joinSepData [c] (b :: rest2)) := by
            simp
        _ = a :: splitCharCore c (joinSepData [c] (b :: rest2)) := by
            rw [splitCharCore_sep_cons c a _ ha]
        _ = a :: b :: rest2 := by rw [ihr]

theorem mem_dropWhile_of_not (p : α → Bool) (l : List α) (x : α)
    (hm : x ∈ l) (hp : p x = false) : x ∈ l.dropWhile p := by
  induction l with
  | nil => cases hm
  | cons a as ih =>
    by_cases ha : p a
    · rw [List.dropWhile_cons_of_pos ha]
      rcases List.mem_cons.mp hm with h | h
      · subst h; rw [hp] at ha; cases ha
      · exact ih h
    · rw [List.dropWhile_cons_of_neg ha]
      exact hm

theorem jsTrimData_ne_nil (l : List Char) (x : Char) (hm : x ∈ l)
    (hx : jsIsWsChar x = false) : jsTrimData l ≠ [] := by
  unfold jsTrimData
  intro hcon
  have h1 : x ∈ l.dropWhile jsIsWsChar := mem_dropWhile_of_not _ l x hm hx
  have h2 : x ∈ (l.dropWhile jsIsWsChar).reverse := List.mem_reverse.mpr h1
  have h3 : x ∈ ((l.dropWhile jsIsWsChar).reverse).dropWhile jsIsWsChar :=
    mem_dropWhile_of_not _ _ x h2 hx
  rw [List.reverse_eq_nil_iff] at hcon
  rw [hcon] at h3
  cases h3

theorem joinSepData_mem_split (sep : List Char) (fs : List (List Char))
    (f : List Char) (hf : f ∈ fs) :
    ∃ u v, joinSepData sep fs = u ++ f ++ v := by
  induction fs with
  | nil => cases hf
  | cons a rest ih =>
    cases rest with
    | nil =>
      rcases List.mem_cons.mp hf with h | h
      · subst h; exact ⟨[], [], by simp [joinSepData]⟩
      · cases h
    | cons b rest2 =>
      rcases List.mem_cons.mp hf with h | h
      · subst h
        exact ⟨[], sep ++ joinSepData sep (b :: rest2), by simp [joinSepData]⟩
      · rcases ih h with ⟨u, v, hu⟩
        refine ⟨a ++ sep ++ u, v, ?_⟩
        simp [joinSepData, hu]

/-- The first file heads the joined conflict output, so a head character
of the first file occurs in the output. -/
theorem joinSepData_head_mem (sep : List Char) (a : List Char)
    (rest : List (List Char)) (x : Char) (hx : x ∈ a) :
    x ∈ joinSepData sep (a :: rest) := by
  cases rest with
  | nil => simpa [joinSepData] using hx
  | cons b r2 => simp [joinSepData, hx]

theorem getLastD_mem (l : List α) (d : α) (h : l ≠ []) : l.getLastD d ∈ l := by
  induction l with
  | nil => exact absurd rfl h
  | cons a as ih =>
    cases as with
    | nil => simp [List.getLastD]
    | cons b bs =>
      have := ih (by simp)
      simpa [List.getLastD] using Or.inr this

/-! ## Lemmas about the round-trip through the split and join
primitives, at the string level -/

theorem string_mk_data (s : String) : String.mk s.data = s := rfl

theorem string_ne_empty_of_data (s : String) (h : s.data ≠ []) : s ≠ "" := by
  intro hcon
  exact h (by rw [hcon])

/-- Splitting the newline-joined conflict list returns the conflict list,
provided the file names are newline-free. -/
theorem jsSplitNl_joinSep (cf : List String) (hne : cf ≠ [])
    (h : ∀ f ∈ cf, '\n' ∉ f.data) :
    jsSplitNl (joinSep "\n" cf) = cf := by
  unfold jsSplitNl joinSep
  have hsep : ("\n" : String).data = ['\n'] := rfl
  rw [hsep]
  have hmapne : cf.map String.data ≠ [] := by
    intro hcon
    exact hne (List.map_eq_nil_iff.mp hcon)
  have hmem : ∀ f ∈ cf.map String.data, '\n' ∉ f := by
    intro f hf
    rcases List.mem_map.mp hf with ⟨g, hg, rfl⟩
    exact h g hg
  rw [string_mk_data (String.mk (joinSepData ['\n'] (cf.map String.data)))]
  rw [show (String.mk (joinSepData ['\n'] (cf.map String.data))).data =
    joinSepData ['\n'] (cf.map String.data) from rfl]
  rw [split_joinSepData_rt '\n' (cf.map String.data) hmapne hmem]
  rw [List.map_map]
  have hid : (fun l => String.mk l) ∘ String.data = id := by
    funext s
    rfl
  rw [hid, List.map_id]

/-- Filtering falsy entries keeps a list of nonempty file names. -/
theorem filterBoolean_id (l : List String) (h : ∀ f ∈ l, f ≠ "") :
    filterBoolean l = l := by
  unfold filterBoolean
  apply List.filter_eq_self.mpr
  intro a ha
  simpa using h a ha

/-! ## Lemmas about the path policy -/

theorem splitSlash_join (a b : String) (hb : '/' ∉ b.data) :
    splitSlash (pathJoin a b) = splitSlash a ++ [b] := by
  unfold splitSlash pathJoin
  have hdata : (a ++ "/" ++ b).data = a.data ++ '/' :: b.data := by
    rw [data_append_eq, data_append_eq]
    simp
  rw [hdata, splitCharCore_append_sep '/' b.data a.data hb, List.map_append]
  rfl

theorem joinSep_splitSlash (a : String) : joinSep "/" (splitSlash a) = a := by
  unfold joinSep splitSlash
  rw [List.map_map]
  have hid : String.data ∘ (fun l => String.mk l) = id := by
    funext l
    rfl
  rw [hid, List.map_id]
  have hsep : ("/" : String).data = ['/'] := rfl
  rw [hsep, joinSepData_split_rt '/' a.data]

theorem pathBasename_join (a b : String) (hb : '/' ∉ b.data) :
    pathBasename (pathJoin a b) = b := by
  unfold pathBasename
  rw [splitSlash_join a b hb]
  induction splitSlash a with
  | nil => rfl
  | cons x xs ih =>
    cases xs with
    | nil => rfl
    | cons y ys => simpa using ih

theorem pathDirname_join (a b : String) (hb : '/' ∉ b.data) :
    pathDirname (pathJoin a b) = a := by
  unfold pathDirname
  rw [splitSlash_join a b hb, List.dropLast_concat, joinSep_splitSlash]

theorem splitSlash_ne_nil (p : String) : splitSlash p ≠ [] := by
  unfold splitSlash
  intro h
  exact splitCharCore_ne_nil '/' p.data (List.map_eq_nil_iff.mp h)

theorem pathBasename_no_sep (p : String) : '/' ∉ (pathBasename p).data := by
  unfold pathBasename
  have hmem : (splitSlash p).getLastD "" ∈ splitSlash p :=
    getLastD_mem _ "" (splitSlash_ne_nil p)
  unfold splitSlash at hmem ⊢
  rcases List.mem_map.mp hmem with ⟨w, hw, hmk⟩
  rw [← hmk]
  exact splitCharCore_no_sep '/' p.data w hw

theorem sanitizeBranch_no_sep (b : String) : '/' ∉ (sanitizeBranch b).data := by
  unfold sanitizeBranch
  intro h
  rcases List.mem_map.mp h with ⟨c, _, hc⟩
  by_cases hcs : c = '/'
  · rw [if_pos hcs] at hc
    cases hc
  · rw [if_neg hcs] at hc
    exact hcs hc

/-! ## Reduction lemmas for the modelled executor -/

theorem runGit_mergeHead (s : DirState) (cwd : String) :
    runGit s (revParseMergeHead cwd) =
      if s.mergeInProgress then (Except.ok "MERGE_HEAD", s)
      else (Except.error "fatal: Needed a single revision", s) := rfl

theorem runGit_diff (s : DirState) (cwd : String) :
    runGit s (diffConflictCall cwd) =
      (Except.ok (joinSep "\n" s.conflictFiles), s) := rfl

/-- A newline-joined nonempty list of nonempty whitespace-free file names
is reported as a conflict by the check helper. -/
theorem hasConflictsOutput_join (cf : List String) (hne : cf ≠ [])
    (hok : ∀ f ∈ cf, f.data ≠ [] ∧ ∀ ch ∈ f.data, jsIsWsChar ch = false) :
    hasConflictsOutput (Except.ok (joinSep "\n" cf)) = true := by
  unfold hasConflictsOutput
  apply decide_eq_true
  cases cf with
  | nil => exact absurd rfl hne
  | cons f rest =>
    rcases hok f (List.mem_cons_self f rest) with ⟨hfd, hfw⟩
    cases hd : f.data with
    | nil => exact absurd hd hfd
    | cons ch tl =>
      have hch : ch ∈ f.data := by rw [hd]; exact List.mem_cons_self ch tl
      have hmem : ch ∈ (joinSep "\n" (f :: rest)).data := by
        show ch ∈ joinSepData ['\n'] ((f :: rest).map String.data)
        exact joinSepData_head_mem ['\n'] f.data (rest.map String.data) ch hch
      have hlen : jsTrimData (joinSep "\n" (f :: rest)).data ≠ [] :=
        jsTrimData_ne_nil _ ch hmem (hfw ch hch)
      have : (jsTrim (joinSep "\n" (f :: rest))).length =
          (jsTrimData (joinSep "\n" (f :: rest)).data).length := rfl
      rw [this]
      exact List.length_pos.mpr hlen

/-- Splitting the newline-joined conflict list and dropping falsy entries
recovers exactly the conflict list. -/
theorem conflictFilesOutput_join (cf : List String) (hne : cf ≠ [])
    (hok : ∀ f ∈ cf, f.data ≠ [] ∧ ∀ ch ∈ f.data, jsIsWsChar ch = false) :
    conflictFilesOutput (Except.ok (joinSep "\n" cf)) = cf := by
  show filterBoolean (jsSplitNl (joinSep "\n" cf)) = cf
  have hnl : ∀ f ∈ cf, '\n' ∉ f.data := by
    intro f hf hmem
    have := (hok f hf).2 '\n' hmem
    rw [show jsIsWsChar '\n' = true from rfl] at this
    cases this
  rw [jsSplitNl_joinSep cf hne hnl]
  exact filterBoolean_id cf (fun f hf => string_ne_empty_of_data f (hok f hf).1)

/-! ## Claim theorems -/

/-- C3: for every directory in which no merge is in progress (the
MERGE_HEAD probe fails), calling resync only reports that there is
nothing to finalize and performs zero mutating executor calls — the sole
call issued is the read-only merge-in-progress probe. -/
theorem C3_resync_no_merge_noop (e : Exec σ) (cwd : String) (s0 s1 : σ)
    (m : String) (h : e s0 (revParseMergeHead cwd) = (Except.error m, s1)) :
    resyncCommand e cwd s0 =
      ([Event.gitCall (revParseMergeHead cwd), Event.info noMergeMsg], s1) ∧
    noMutatingCalls (resyncCommand e cwd s0).1 = true := by
  have h1 : resyncCommand e cwd s0 =
      ([Event.gitCall (revParseMergeHead cwd), Event.info noMergeMsg], s1) := by
    unfold resyncCommand isMergeInProgress
    rw [h]
    rfl
  refine ⟨h1, ?_⟩
  rw [h1]
  rfl

/-- Witness for C3 at a concrete executor with no merge in progress. -/
theorem C3_witness :
    resyncCommand (fun s _ => (Except.error "fatal: Needed a single revision", s))
        "/repo" 0 =
      ([Event.gitCall (revParseMergeHead "/repo"), Event.info noMergeMsg], 0) :=
  (C3_resync_no_merge_noop
    (fun s _ => (Except.error "fatal: Needed a single revision", s))
    "/repo" 0 0 "fatal: Needed a single revision" rfl).1

/-- C4: for every directory state with a merge in progress and zero
conflict files, resync stages all changes (`add -A`), commits with the
default no-edit merge message, produces exactly one commit call and a
state with exactly one more commit, and ends the merge-in-progress
state. -/
theorem C4_resync_finalizes (cwd : String) (s : DirState)
    (hm : s.mergeInProgress = true) (hcf : s.conflictFiles = []) :
    resyncCommand runGit cwd s =
      ([Event.gitCall (revParseMergeHead cwd), Event.gitCall (diffConflictCall cwd),
        Event.gitCall (addAllCall cwd), Event.gitCall (commitNoEditCall cwd),
        Event.gitCall (revParseHeadCall cwd), Event.info (resyncDoneMsg s.currentBranch)],
       ⟨s.commits + 1, false, [], s.currentBranch⟩) ∧
    commitCallCount (resyncCommand runGit cwd s).1 = 1 ∧
    (resyncCommand runGit cwd s).2.commits = s.commits + 1 ∧
    (resyncCommand runGit cwd s).2.mergeInProgress = false := by
  obtain ⟨n, mip, cf, br⟩ := s
  dsimp only at hm hcf
  subst hm
  subst hcf
  exact ⟨rfl, rfl, rfl, rfl⟩

/-- Witness for C4 at a concrete merged-and-resolved directory state. -/
theorem C4_witness :
    (resyncCommand runGit "/repo" ⟨5, true, [], "feat"⟩).2.commits = 5 + 1 ∧
    (resyncCommand runGit "/repo" ⟨5, true, [], "feat"⟩).2.mergeInProgress = false :=
  ⟨(C4_resync_finalizes "/repo" ⟨5, true, [], "feat"⟩ rfl rfl).2.2.1,
   (C4_resync_finalizes "/repo" ⟨5, true, [], "feat"⟩ rfl rfl).2.2.2⟩

/-- C6: the derived worktree path is a sibling of the repository root
under the directory named after the root with the `-worktrees` suffix,
and its final segment is the branch name with every separator replaced by
a hyphen — in particular separator-free for every branch name. -/
theorem C6_worktree_path_policy (R B : String) (hB : B ≠ "") :
    pathDirname (getWorktreeBaseDir R) = pathDirname R ∧
    pathBasename (getWorktreeBaseDir R) = pathBasename R ++ "-worktrees" ∧
    pathDirname (worktreePathFor R B) = getWorktreeBaseDir R ∧
    pathBasename (worktreePathFor R B) = sanitizeBranch B ∧
    (∀ ch ∈ (pathBasename (worktreePathFor R B)).data, ch ≠ '/') ∧
    (sanitizeBranch B).data = B.data.map (fun c => if c = '/' then '-' else c) := by
  have hB2 : B.data ≠ [] := by
    intro hcon
    apply hB
    cases B
    simp at hcon
    rw [hcon]
  have hseg : '/' ∉ (pathBasename R ++ "-worktrees").data := by
    rw [data_append_eq]
    intro h
    rcases List.mem_append.mp h with h | h
    · exact pathBasename_no_sep R h
    · revert h
      decide
  refine ⟨?_, ?_, ?_, ?_, ?_, rfl⟩
  · exact pathDirname_join (pathDirname R) _ hseg
  · exact pathBasename_join (pathDirname R) _ hseg
  · exact pathDirname_join (getWorktreeBaseDir R) _ (sanitizeBranch_no_sep B)
  · exact pathBasename_join (getWorktreeBaseDir R) _ (sanitizeBranch_no_sep B)
  · intro ch hch hcon
    have h4 : pathBasename (pathJoin (getWorktreeBaseDir R) (sanitizeBranch B)) =
        sanitizeBranch B :=
      pathBasename_join (getWorktreeBaseDir R) _ (sanitizeBranch_no_sep B)
    have hch2 : ch ∈ (sanitizeBranch B).data := by
      rw [show worktreePathFor R B =
        pathJoin (getWorktreeBaseDir R) (sanitizeBranch B) from rfl, h4] at hch
      exact hch
    exact sanitizeBranch_no_sep B (hcon ▸ hch2)

/-- Witness for C6 at a concrete root and a hierarchical branch name. -/
theorem C6_witness :
    pathDirname (getWorktreeBaseDir "/code/myproject") = pathDirname "/code/myproject" ∧
    pathBasename (worktreePathFor "/code/myproject" "feature/x") =
      sanitizeBranch "feature/x" :=
  ⟨(C6_worktree_path_policy "/code/myproject" "feature/x" (by decide)).1,
   (C6_worktree_path_policy "/code/myproject" "feature/x" (by decide)).2.2.2.1⟩

/-- C9: for every state of local branches and every current branch, no
removal candidate offered by the removal quick-pick is the current
branch. -/
theorem C9_current_branch_not_removable (localBranches : List String)
    (worktrees : List Worktree) (currentBranch : String) :
    ∀ item ∈ buildRemoveItems (deletableBranches localBranches currentBranch) worktrees,
      item.branch ≠ currentBranch := by
  intro item hitem
  unfold buildRemoveItems at hitem
  rcases List.mem_map.mp hitem with ⟨b, hb, heq⟩
  have hbne : b ≠ currentBranch := by
    unfold deletableBranches at hb
    have := List.mem_filter.mp hb
    simpa using this.2
  cases hfind : worktrees.find? (fun wt => wt.branch = b) with
  | none =>
    rw [hfind] at heq
    rw [← heq]
    exact hbne
  | some wt =>
    rw [hfind] at heq
    rw [← heq]
    exact hbne

/-- Witness for C9 at a concrete candidate list. -/
theorem C9_witness :
    (⟨"feat", none⟩ : RemoveItem).branch ≠ "main" :=
  C9_current_branch_not_removable ["main", "feat"] [] "main"
    ⟨"feat", none⟩ (by decide)

/-- C1: for every directory state with a merge in progress and at least
one conflict file remaining (nonempty whitespace-free names, as git
prints them), resync performs only the three read-only queries, mutates
nothing, commits nothing, and the warning it shows names every remaining
conflicted file. -/
theorem C1_resync_refuses_with_conflicts (cwd : String) (s : DirState)
    (hm : s.mergeInProgress = true) (hne : s.conflictFiles ≠ [])
    (hok : ∀ f ∈ s.conflictFiles,
      f.data ≠ [] ∧ ∀ ch ∈ f.data, jsIsWsChar ch = false) :
    resyncCommand runGit cwd s =
      ([Event.gitCall (revParseMergeHead cwd), Event.gitCall (diffConflictCall cwd),
        Event.gitCall (diffConflictCall cwd),
        Event.warn (stillConflictsMsg s.conflictFiles)], s) ∧
    noMutatingCalls (resyncCommand runGit cwd s).1 = true ∧
    ∀ f ∈ s.conflictFiles, ∃ u v,
      (stillConflictsMsg s.conflictFiles).data = u ++ f.data ++ v := by
  obtain ⟨n, mip, cf, br⟩ := s
  dsimp only at hm hne hok ⊢
  subst hm
  have hmain : resyncCommand runGit cwd ⟨n, true, cf, br⟩ =
      ([Event.gitCall (revParseMergeHead cwd), Event.gitCall (diffConflictCall cwd),
        Event.gitCall (diffConflictCall cwd), Event.warn (stillConflictsMsg cf)],
       ⟨n, true, cf, br⟩) := by
    simp only [resyncCommand, checkForConflicts, getConflictFiles, isMergeInProgress,
      runGit_mergeHead, runGit_diff]
    simp [hasConflictsOutput_join cf hne hok, conflictFilesOutput_join cf hne hok]
  refine ⟨hmain, ?_, ?_⟩
  · rw [hmain]
    rfl
  · intro f hf
    rcases joinSepData_mem_split [',', ' '] (cf.map String.data) f.data
        (List.mem_map_of_mem String.data hf) with ⟨u, v, huv⟩
    refine ⟨("⚠️ There are still unresolved conflicts:\n" : String).data ++ u,
      v ++ ("\n\nPlease resolve them before re-syncing." : String).data, ?_⟩
    unfold stillConflictsMsg
    rw [data_append_eq, data_append_eq]
    rw [show (joinSep ", " cf).data = joinSepData [',', ' '] (cf.map String.data)
      from rfl]
    rw [huv]
    simp [List.append_assoc]

/-- Witness for C1 at a concrete conflicted directory state. -/
theorem C1_witness :
    resyncCommand runGit "/repo" ⟨3, true, ["a.txt", "b.txt"], "feat"⟩ =
      ([Event.gitCall (revParseMergeHead "/repo"),
        Event.gitCall (diffConflictCall "/repo"),
        Event.gitCall (diffConflictCall "/repo"),
        Event.warn (stillConflictsMsg ["a.txt", "b.txt"])],
       ⟨3, true, ["a.txt", "b.txt"], "feat"⟩) :=
  (C1_resync_refuses_with_conflicts "/repo" ⟨3, true, ["a.txt", "b.txt"], "feat"⟩
    rfl (by decide) (by decide)).1

/-- The stage-all call is always issued once re-sync reaches
finalization. -/
theorem resyncFinalize_mem_add (e : Exec σ) (cwd : String) (pre : List Event)
    (s : σ) : Event.gitCall (addAllCall cwd) ∈ (resyncFinalize e cwd pre s).1 := by
  unfold resyncFinalize
  rcases ha : (e s (addAllCall cwd)).1 with m | x
  · simp [ha]
  · rcases hc : (e ((e s (addAllCall cwd)).2) (commitNoEditCall cwd)).1 with m | y
    · simp [ha, hc]
    · rcases hh :
        (e ((e ((e s (addAllCall cwd)).2) (commitNoEditCall cwd)).2)
          (revParseHeadCall cwd)).1 with m | z
      · simp [ha, hc, hh]
      · simp [ha, hc, hh]

/-- When staging succeeds, finalization always issues the commit call. -/
theorem resyncFinalize_mem_commit (e : Exec σ) (cwd : String) (pre : List Event)
    (s s3 : σ) (aout : String) (ha : e s (addAllCall cwd) = (Except.ok aout, s3)) :
    Event.gitCall (commitNoEditCall cwd) ∈ (resyncFinalize e cwd pre s).1 := by
  unfold resyncFinalize
  rw [ha]
  rcases hc : (e s3 (commitNoEditCall cwd)).1 with m | y
  · simp [hc]
  · rcases hh : (e ((e s3 (commitNoEditCall cwd)).2) (revParseHeadCall cwd)).1
      with m | z
    · simp [hc, hh]
    · simp [hc, hh]

/-- C10: when the conflict-file query itself fails while a merge is in
progress, the conflict check reports false, the file list reports empty,
and resync proceeds to finalization: it stages all changes and — once
staging succeeds — commits, exactly as if every conflict were
resolved. -/
theorem C10_conflict_query_failure_commits (e : Exec σ) (cwd : String)
    (s0 s1 s2 : σ) (probe m : String)
    (h1 : e s0 (revParseMergeHead cwd) = (Except.ok probe, s1))
    (h2 : e s1 (diffConflictCall cwd) = (Except.error m, s2)) :
    (checkForConflicts e cwd s1).1 = false ∧
    (getConflictFiles e cwd s1).1 = [] ∧
    resyncCommand e cwd s0 =
      resyncFinalize e cwd
        [Event.gitCall (revParseMergeHead cwd), Event.gitCall (diffConflictCall cwd)]
        s2 ∧
    Event.gitCall (addAllCall cwd) ∈ (resyncCommand e cwd s0).1 ∧
    (∀ aout s3, e s2 (addAllCall cwd) = (Except.ok aout, s3) →
      Event.gitCall (commitNoEditCall cwd) ∈ (resyncCommand e cwd s0).1) := by
  have hcc : (checkForConflicts e cwd s1).1 = false := by
    unfold checkForConflicts
    rw [h2]
    rfl
  have hgf : (getConflictFiles e cwd s1).1 = [] := by
    unfold getConflictFiles
    rw [h2]
    rfl
  have hmain : resyncCommand e cwd s0 =
      resyncFinalize e cwd
        [Event.gitCall (revParseMergeHead cwd), Event.gitCall (diffConflictCall cwd)]
        s2 := by
    unfold resyncCommand isMergeInProgress checkForConflicts
    rw [h1]
    dsimp only
    rw [h2]
    rfl
  refine ⟨hcc, hgf, hmain, ?_, ?_⟩
  · rw [hmain]
    exact resyncFinalize_mem_add e cwd _ s2
  · intro aout s3 ha
    rw [hmain]
    exact resyncFinalize_mem_commit e cwd _ s2 s3 aout ha


/-- Witness for C10: under the failing conflict query, resync stages and
commits. -/
theorem C10_witness :
    Event.gitCall (addAllCall "/repo") ∈ (resyncCommand brokenDiffExec "/repo" 0).1 ∧
    Event.gitCall (commitNoEditCall "/repo") ∈
      (resyncCommand brokenDiffExec "/repo" 0).1 :=
  ⟨(C10_conflict_query_failure_commits brokenDiffExec "/repo" 0 0 0 "MERGE_HEAD"
      "boom" rfl rfl).2.2.2.1,
   (C10_conflict_query_failure_commits brokenDiffExec "/repo" 0 0 0 "MERGE_HEAD"
      "boom" rfl rfl).2.2.2.2 "" 0 rfl⟩

/-- Reduction of the sync command once the checked-out branch matches the
selection: the merge step runs after the single branch probe. -/
theorem syncSelected_match (e : Exec σ) (root remote : String) (item : BranchItem)
    (action : Option String) (s0 s1 : σ) (out : String)
    (h1 : e s0 (revParseHeadCall (targetDir item root)) = (Except.ok out, s1))
    (h2 : jsTrim out = item.branch) :
    syncSelected e root remote item action s0 =
      ([Event.gitCall (revParseHeadCall (targetDir item root))] ++
        (syncMerge e (targetDir item root) item.branch remote action s1).1,
       (syncMerge e (targetDir item root) item.branch remote action s1).2) := by
  unfold syncSelected
  dsimp only
  rw [h1]
  dsimp only
  rw [h2]
  simp

/-- C2: when the merge step fails, the conflict query decides the path.
With conflicts detected the command offers exactly the two resolutions
"Open in New Window" and "Abort Merge": opening issues no further
executor call (the merge stays on disk) and aborting issues exactly the
merge-abort call; a dismissed prompt does nothing further.  With no
conflicts detected the executor error is surfaced verbatim and no call
beyond the read-only conflict query is issued. -/
theorem C2_sync_conflict_paths (e : Exec σ) (root remote : String)
    (item : BranchItem) (s0 s1 s2 : σ) (out m : String)
    (h1 : e s0 (revParseHeadCall (targetDir item root)) = (Except.ok out, s1))
    (h2 : jsTrim out = item.branch)
    (h3 : e s1 (mergeCall (targetDir item root) remote) = (Except.error m, s2)) :
    (∀ r s3, e s2 (diffConflictCall (targetDir item root)) = (r, s3) →
      hasConflictsOutput r = true →
      (syncSelected e root remote item (some openWindowLabel) s0 =
        ([Event.gitCall (revParseHeadCall (targetDir item root)),
          Event.gitCall (mergeCall (targetDir item root) remote),
          Event.gitCall (diffConflictCall (targetDir item root)),
          Event.warnChoice (conflictPromptMsg item.branch)
            [openWindowLabel, abortMergeLabel],
          Event.openFolder (targetDir item root), Event.info resolveHintMsg], s3)) ∧
      (∀ aout s4, e s3 (mergeAbortCall (targetDir item root)) = (Except.ok aout, s4) →
        syncSelected e root remote item (some abortMergeLabel) s0 =
          ([Event.gitCall (revParseHeadCall (targetDir item root)),
            Event.gitCall (mergeCall (targetDir item root) remote),
            Event.gitCall (diffConflictCall (targetDir item root)),
            Event.warnChoice (conflictPromptMsg item.branch)
              [openWindowLabel, abortMergeLabel],
            Event.gitCall (mergeAbortCall (targetDir item root)),
            Event.info (mergeAbortedMsg item.branch)], s4)) ∧
      (syncSelected e root remote item none s0 =
        ([Event.gitCall (revParseHeadCall (targetDir item root)),
          Event.gitCall (mergeCall (targetDir item root) remote),
          Event.gitCall (diffConflictCall (targetDir item root)),
          Event.warnChoice (conflictPromptMsg item.branch)
            [openWindowLabel, abortMergeLabel]], s3))) ∧
    (∀ r s3 action, e s2 (diffConflictCall (targetDir item root)) = (r, s3) →
      hasConflictsOutput r = false →
      syncSelected e root remote item action s0 =
        ([Event.gitCall (revParseHeadCall (targetDir item root)),
          Event.gitCall (mergeCall (targetDir item root) remote),
          Event.gitCall (diffConflictCall (targetDir item root)),
          Event.error (mergeFailedMsg m)], s3)) := by
  have hmerge : ∀ action,
      syncMerge e (targetDir item root) item.branch remote action s1 =
        (let conflicted := hasConflictsOutput
            (e s2 (diffConflictCall (targetDir item root))).1
         let s3 := (e s2 (diffConflictCall (targetDir item root))).2
         if conflicted then
           let base := [Event.gitCall (mergeCall (targetDir item root) remote),
             Event.gitCall (diffConflictCall (targetDir item root)),
             Event.warnChoice (conflictPromptMsg item.branch)
               [openWindowLabel, abortMergeLabel]]
           if action = some openWindowLabel then
             (base ++ [Event.openFolder (targetDir item root),
               Event.info resolveHintMsg], s3)
           else if action = some abortMergeLabel then
             match (e s3 (mergeAbortCall (targetDir item root))).1 with
             | Except.ok _ =>
               (base ++ [Event.gitCall (mergeAbortCall (targetDir item root)),
                 Event.info (mergeAbortedMsg item.branch)],
                (e s3 (mergeAbortCall (targetDir item root))).2)
             | Except.error m2 =>
               (base ++ [Event.gitCall (mergeAbortCall (targetDir item root)),
                 Event.error (syncFailMsg m2)],
                (e s3 (mergeAbortCall (targetDir item root))).2)
           else (base, s3)
         else
           ([Event.gitCall (mergeCall (targetDir item root) remote),
             Event.gitCall (diffConflictCall (targetDir item root)),
             Event.error (mergeFailedMsg m)], s3)) := by
    intro action
    unfold syncMerge checkForConflicts
    rw [h3]
  constructor
  · intro r s3 hd hr
    have hex : (e s2 (diffConflictCall (targetDir item root))).1 = r := by rw [hd]
    have hex2 : (e s2 (diffConflictCall (targetDir item root))).2 = s3 := by rw [hd]
    refine ⟨?_, ?_, ?_⟩
    · rw [syncSelected_match e root remote item _ s0 s1 out h1 h2, hmerge]
      simp only [hex, hex2, hr]
      simp
    · intro aout s4 h4
      rw [syncSelected_match e root remote item _ s0 s1 out h1 h2, hmerge]
      simp only [hex, hex2, hr, h4]
      simp [openWindowLabel, abortMergeLabel]
    · rw [syncSelected_match e root remote item _ s0 s1 out h1 h2, hmerge]
      simp only [hex, hex2, hr]
      simp [openWindowLabel, abortMergeLabel]
  · intro r s3 action hd hr
    have hex : (e s2 (diffConflictCall (targetDir item root))).1 = r := by rw [hd]
    have hex2 : (e s2 (diffConflictCall (targetDir item root))).2 = s3 := by rw [hd]
    rw [syncSelected_match e root remote item _ s0 s1 out h1 h2, hmerge]
    simp only [hex, hex2, hr]
    simp


/-- Witness for C2: the conflicted merge offers the two resolutions and
the open-window choice issues no further executor call. -/
theorem C2_witness :
    syncSelected conflictExec "/repo" "origin/main" ⟨"feat", some "/wt/feat"⟩
        (some openWindowLabel) 0 =
      ([Event.gitCall (revParseHeadCall "/wt/feat"),
        Event.gitCall (mergeCall "/wt/feat" "origin/main"),
        Event.gitCall (diffConflictCall "/wt/feat"),
        Event.warnChoice (conflictPromptMsg "feat") [openWindowLabel, abortMergeLabel],
        Event.openFolder "/wt/feat", Event.info resolveHintMsg], 0) :=
  ((C2_sync_conflict_paths conflictExec "/repo" "origin/main"
      ⟨"feat", some "/wt/feat"⟩ 0 0 0 "feat" "CONFLICT" rfl (by decide) rfl).1
    (Except.ok "file.txt") 0 rfl (by decide)).1

theorem callsUseDir_append (a b : List Event) (d : String) :
    callsUseDir (a ++ b) d = (callsUseDir a d && callsUseDir b d) := by
  simp [callsUseDir, List.all_append]

/-- Every executor call of the merge step runs in the resolved target
directory. -/
theorem syncMerge_calls_use_dir (e : Exec σ) (cwd b remote : String)
    (action : Option String) (s : σ) :
    callsUseDir (syncMerge e cwd b remote action s).1 cwd = true := by
  unfold syncMerge checkForConflicts
  split
  · simp [callsUseDir, mergeCall, diffConflictCall, mergeAbortCall, revParseHeadCall, checkoutCall]
  · dsimp only
    split
    · split
      · simp [callsUseDir, mergeCall, diffConflictCall, mergeAbortCall, revParseHeadCall, checkoutCall]
      · split
        · split
          · simp [callsUseDir, mergeCall, diffConflictCall, mergeAbortCall, revParseHeadCall, checkoutCall]
          · simp [callsUseDir, mergeCall, diffConflictCall, mergeAbortCall, revParseHeadCall, checkoutCall]
        · simp [callsUseDir, mergeCall, diffConflictCall, mergeAbortCall, revParseHeadCall, checkoutCall]
    · simp [callsUseDir, mergeCall, diffConflictCall, mergeAbortCall, revParseHeadCall, checkoutCall]

/-- C5: the selectable sync items pair every worktree branch with its
worktree directory and every other local branch with no directory; every
executor call of the sync command runs in the resolved target directory
(the worktree directory when the item has one, else the repository
root); on a branch mismatch the command checks out first in the
no-worktree case, and in the worktree case fails with the mismatch error
without issuing a checkout or any further call. -/
theorem C5_sync_target_directory (root remote : String) :
    (∀ (worktrees : List Worktree) (localBranches : List String)
      (item : BranchItem), item ∈ buildBranchItems worktrees localBranches →
      (∃ w ∈ worktrees, item = ⟨w.branch, some w.path⟩) ∨
      (item.worktreePath = none ∧ item.branch ∈ localBranches ∧
        item.branch ∉ worktrees.map Worktree.branch)) ∧
    (∀ (σ : Type) (e : Exec σ) (item : BranchItem) (action : Option String)
      (s : σ),
      callsUseDir (syncSelected e root remote item action s).1
        (targetDir item root) = true) ∧
    (∀ (σ : Type) (e : Exec σ) (item : BranchItem) (action : Option String)
      (s0 s1 : σ) (out : String),
      e s0 (revParseHeadCall (targetDir item root)) = (Except.ok out, s1) →
      jsTrim out ≠ item.branch → noWorktree item = true →
      (syncSelected e root remote item action s0).1.take 2 =
        [Event.gitCall (revParseHeadCall (targetDir item root)),
         Event.gitCall (checkoutCall item.branch (targetDir item root))]) ∧
    (∀ (σ : Type) (e : Exec σ) (item : BranchItem) (action : Option String)
      (s0 s1 : σ) (out : String),
      e s0 (revParseHeadCall (targetDir item root)) = (Except.ok out, s1) →
      jsTrim out ≠ item.branch → noWorktree item = false →
      syncSelected e root remote item action s0 =
        ([Event.gitCall (revParseHeadCall (targetDir item root)),
          Event.error (mismatchMsg (targetDir item root) (jsTrim out) item.branch)],
         s1)) := by
  refine ⟨?_, ?_, ?_, ?_⟩
  · intro worktrees localBranches item h
    unfold buildBranchItems at h
    rcases List.mem_append.mp h with h | h
    · rcases List.mem_map.mp h with ⟨w, hw, heq⟩
      exact Or.inl ⟨w, hw, heq.symm⟩
    · rcases List.mem_map.mp h with ⟨b, hb, heq⟩
      have hf := List.mem_filter.mp hb
      refine Or.inr ⟨?_, ?_, ?_⟩
      · rw [← heq]
      · rw [← heq]
        exact hf.1
      · rw [← heq]
        simpa using hf.2
  · intro σ e item action s
    unfold syncSelected
    dsimp only
    split
    · simp [callsUseDir, mergeCall, diffConflictCall, mergeAbortCall, revParseHeadCall, checkoutCall]
    · split
      · rw [callsUseDir_append, Bool.and_eq_true]
        exact ⟨by simp [callsUseDir, revParseHeadCall],
          syncMerge_calls_use_dir e _ _ _ _ _⟩
      · split
        · split
          · simp [callsUseDir, mergeCall, diffConflictCall, mergeAbortCall, revParseHeadCall, checkoutCall]
          · rw [callsUseDir_append, Bool.and_eq_true]
            exact ⟨by simp [callsUseDir, revParseHeadCall, checkoutCall],
              syncMerge_calls_use_dir e _ _ _ _ _⟩
        · simp [callsUseDir, mergeCall, diffConflictCall, mergeAbortCall, revParseHeadCall, checkoutCall]
  · intro σ e item action s0 s1 out h1 h2 hnw
    unfold syncSelected
    dsimp only
    rw [h1]
    dsimp only
    rw [if_neg h2, hnw]
    rw [if_pos rfl]
    split
    · simp
    · simp
  · intro σ e item action s0 s1 out h1 h2 hnw
    unfold syncSelected
    dsimp only
    rw [h1]
    dsimp only
    rw [if_neg h2, hnw]
    simp


/-- Witness for C5: the mismatch in the worktree case fails without a
checkout. -/
theorem C5_witness :
    syncSelected mismatchExec "/repo" "origin/main" ⟨"feat", some "/wt/feat"⟩
        none 0 =
      ([Event.gitCall (revParseHeadCall "/wt/feat"),
        Event.error (mismatchMsg "/wt/feat" (jsTrim "main") "feat")], 0) :=
  (C5_sync_target_directory "/repo" "origin/main").2.2.2 Nat mismatchExec
    ⟨"feat", some "/wt/feat"⟩ none 0 0 "main" rfl (by decide) rfl

/-- An invalid candidate branch name never passes validation. -/
theorem validateInput_reject (v : String)
    (h : v = "" ∨ jsTrim v = "" ∨ v.data.any jsIsWsChar = true) :
    validateInput v ≠ none := by
  unfold validateInput
  rcases h with h | h | h
  · simp [h]
  · simp [h]
  · by_cases h0 : (v = "" || jsTrim v = "") = true
    · simp [h0]
    · simp only [h0]
      simp [h]

/-- A rejected entry yields no accepted input. -/
theorem showInputBox_reject (v : String) (h : validateInput v ≠ none) :
    showInputBox (some v) = none := by
  show (if validateInput v = none then some v else none) = none
  rw [if_neg h]

/-- Without an accepted branch name the creation tail stops at the
prompt. -/
theorem finishCreate_cancel (e : Exec σ) (root : String) (pre : List Event)
    (base : String) (na : Option String) (s : σ) (hna : showInputBox na = none) :
    finishCreate e root pre base na s = (pre, s) := by
  unfold finishCreate
  rw [hna]

theorem hasWorktreeAddCall_append (a b : List Event) :
    hasWorktreeAddCall (a ++ b) = (hasWorktreeAddCall a || hasWorktreeAddCall b) := by
  simp [hasWorktreeAddCall, List.any_append]

/-- Resolving the default remote branch issues only read-only probes. -/
theorem getDefault_no_wtadd (e : Exec σ) (root : String) (s : σ) :
    hasWorktreeAddCall (getDefaultRemoteBranch e root s).1 = false := by
  unfold getDefaultRemoteBranch
  split
  · rfl
  · dsimp only
    split
    · rfl
    · rfl

/-- With no accepted branch name, the creation command runs exactly as a
cancelled prompt and never issues the branch-and-worktree creation
call. -/
theorem createBranch_no_input (e : Exec σ) (root : String)
    (mode : Option CreateMode) (lp rp na : Option String) (s : σ)
    (hna : showInputBox na = none) :
    createBranchCommand e root mode lp rp na s =
      createBranchCommand e root mode lp rp none s ∧
    hasWorktreeAddCall (createBranchCommand e root mode lp rp na s).1 = false := by
  cases mode with
  | none => exact ⟨rfl, rfl⟩
  | some md =>
    cases md with
    | fromOriginMaster =>
      unfold createBranchCommand
      dsimp only
      split
      · exact ⟨rfl, rfl⟩
      · rw [finishCreate_cancel _ _ _ _ _ _ hna, finishCreate_cancel _ _ _ _ none _ rfl]
        refine ⟨rfl, ?_⟩
        rw [hasWorktreeAddCall_append, getDefault_no_wtadd]
        rfl
    | fromLocalBranch =>
      unfold createBranchCommand
      dsimp only
      split
      · exact ⟨rfl, rfl⟩
      · split
        · exact ⟨rfl, rfl⟩
        · cases lp with
          | none => exact ⟨rfl, rfl⟩
          | some b =>
            dsimp only
            split
            · rw [finishCreate_cancel _ _ _ _ _ _ hna,
                finishCreate_cancel _ _ _ _ none _ rfl]
              exact ⟨rfl, rfl⟩
            · exact ⟨rfl, rfl⟩
    | cloneRemoteBranch =>
      unfold createBranchCommand
      dsimp only
      split
      · exact ⟨rfl, rfl⟩
      · split
        · exact ⟨rfl, rfl⟩
        · split
          · exact ⟨rfl, rfl⟩
          · cases rp with
            | none => exact ⟨rfl, rfl⟩
            | some b =>
              dsimp only
              split
              · rw [finishCreate_cancel _ _ _ _ _ _ hna,
                  finishCreate_cancel _ _ _ _ none _ rfl]
                exact ⟨rfl, rfl⟩
              · exact ⟨rfl, rfl⟩

/-- C7: in every creation mode and for every executor, a candidate
branch name that is empty, whitespace-only, or contains embedded
whitespace fails validation, is rejected at the input prompt, leaves the
invocation identical to a cancelled one, and the branch-and-worktree
creation call is never issued. -/
theorem C7_invalid_name_rejected (e : Exec σ) (root : String)
    (mode : Option CreateMode) (lp rp : Option String) (v : String) (s : σ)
    (hv : v = "" ∨ jsTrim v = "" ∨ v.data.any jsIsWsChar = true) :
    validateInput v ≠ none ∧
    createBranchCommand e root mode lp rp (some v) s =
      createBranchCommand e root mode lp rp none s ∧
    hasWorktreeAddCall (createBranchCommand e root mode lp rp (some v) s).1 =
      false := by
  have hrej := validateInput_reject v hv
  have hna := showInputBox_reject v hrej
  rcases createBranch_no_input e root mode lp rp (some v) s hna with ⟨h1, h2⟩
  exact ⟨hrej, h1, h2⟩


/-- Witness for C7 at the whitespace-containing name "bad name". -/
theorem C7_witness :
    validateInput "bad name" ≠ none ∧
    hasWorktreeAddCall
      (createBranchCommand okExec "/repo" (some CreateMode.fromOriginMaster)
        none none (some "bad name") 0).1 = false :=
  ⟨(C7_invalid_name_rejected okExec "/repo" (some CreateMode.fromOriginMaster)
      none none "bad name" 0 (by decide)).1,
   (C7_invalid_name_rejected okExec "/repo" (some CreateMode.fromOriginMaster)
      none none "bad name" 0 (by decide)).2.2⟩

/-- C8: the removal batch decomposes item by item — whatever happens
while processing one selected branch (including any per-step failure),
every branch before and after it is still processed with its own full
iteration — and a failing step reports the branch together with the
failure reason: a worktree-removal failure, a branch-deletion failure
without a worktree, and a branch-deletion failure after a successful
worktree removal each end the iteration with the warning naming the
branch and the reason. -/
theorem C8_batch_isolation (e : Exec σ) (root : String) (deleteRemote : Bool)
    (pre post : List RemoveItem) (item : RemoveItem) (s : σ) :
    ((removeLoop e root deleteRemote (pre ++ item :: post) s).1 =
      (removeLoop e root deleteRemote pre s).1 ++
      (processOne e root deleteRemote item
        (removeLoop e root deleteRemote pre s).2).1 ++
      (removeLoop e root deleteRemote post
        (processOne e root deleteRemote item
          (removeLoop e root deleteRemote pre s).2).2).1) ∧
    (∀ (s' : σ) (p m : String), item.worktreePath = some p →
      (e s' (worktreeRemoveCall p root)).1 = Except.error m →
      (processOne e root deleteRemote item s').1 =
        [Event.gitCall (worktreeRemoveCall p root),
         Event.warn (removeFailMsg item.branch m)]) ∧
    (∀ (s' : σ) (m : String), item.worktreePath = none →
      (e s' (branchDeleteCall item.branch root)).1 = Except.error m →
      (processOne e root deleteRemote item s').1 =
        [Event.gitCall (branchDeleteCall item.branch root),
         Event.warn (removeFailMsg item.branch m)]) ∧
    (∀ (s' : σ) (p aout m : String), item.worktreePath = some p →
      e s' (worktreeRemoveCall p root) = (Except.ok aout,
        (e s' (worktreeRemoveCall p root)).2) →
      (e ((e s' (worktreeRemoveCall p root)).2)
        (branchDeleteCall item.branch root)).1 = Except.error m →
      (processOne e root deleteRemote item s').1 =
        [Event.gitCall (worktreeRemoveCall p root),
         Event.gitCall (branchDeleteCall item.branch root),
         Event.warn (removeFailMsg item.branch m)]) := by
  refine ⟨?_, ?_, ?_, ?_⟩
  · induction pre generalizing s with
    | nil => simp [removeLoop]
    | cons a rest ih =>
      simp only [List.cons_append, removeLoop, List.append_eq]
      rw [ih]
      simp [List.append_assoc]
  · intro s' p m hwp herr
    unfold processOne
    rw [hwp]
    dsimp only
    rw [herr]
  · intro s' m hwp herr
    unfold processOne
    rw [hwp]
    unfold deleteSteps
    rw [herr]
  · intro s' p aout m hwp hok herr
    unfold processOne
    rw [hwp]
    dsimp only
    rw [hok]
    unfold deleteSteps
    dsimp only
    rw [herr]
    rfl


/-- Witness for C8: in the batch A, B, C with the worktree of B locked,
the batch still decomposes into all three iterations, and the iteration
of B reports the branch with the reason. -/
theorem C8_witness :
    ((removeLoop lockedExec "/repo" false
        [⟨"A", none⟩, ⟨"B", some "/wt/B"⟩, ⟨"C", none⟩] 0).1 =
      (removeLoop lockedExec "/repo" false [⟨"A", none⟩] 0).1 ++
      (processOne lockedExec "/repo" false ⟨"B", some "/wt/B"⟩
        (removeLoop lockedExec "/repo" false [⟨"A", none⟩] 0).2).1 ++
      (removeLoop lockedExec "/repo" false [⟨"C", none⟩]
        (processOne lockedExec "/repo" false ⟨"B", some "/wt/B"⟩
          (removeLoop lockedExec "/repo" false [⟨"A", none⟩] 0).2).2).1) ∧
    (processOne lockedExec "/repo" false ⟨"B", some "/wt/B"⟩ 0).1 =
      [Event.gitCall (worktreeRemoveCall "/wt/B" "/repo"),
       Event.warn (removeFailMsg "B" "locked")] :=
  ⟨(C8_batch_isolation lockedExec "/repo" false [⟨"A", none⟩] [⟨"C", none⟩]
      ⟨"B", some "/wt/B"⟩ 0).1,
   (C8_batch_isolation lockedExec "/repo" false [⟨"A", none⟩] [⟨"C", none⟩]
      ⟨"B", some "/wt/B"⟩ 0).2.1 0 "/wt/B" "locked" rfl rfl⟩

end GitSimplifier
